import Mathlib

/-!
Verification of the flyby core: the flight maneuver controller
(`useFlightController.ts`) and the SRF model parser (`srfParser.ts`).

The controller is embedded with JavaScript numbers split by role: time
deltas, step-progress accumulators and maneuver magnitudes are exact
rationals (ℚ); angles and positions, which the source obtains through
`Math.PI` and trigonometry, are real numbers (ℝ).  Each source function
is translated to a Lean definition of the same name; the mutable
per-controller refs (`stateRef`, `stepProgressRef`) become one explicit
`FlightState` record threaded through `update`.
-/

namespace Flyby

/-- `SPEED`: speed constant in units per second. -/
def SPEED : ℚ := 100

/-- `ALTITUDE`: base altitude used by `initFlight`. -/
def ALTITUDE : ℝ := 300

/-- `FULL_CIRCLE`: 16-bit angle convention, `0x10000` units per turn. -/
def FULL_CIRCLE : ℚ := 65536

/-- `PITCH_RATE`: pitch rotation rate in 16-bit angle units per second. -/
def PITCH_RATE : ℚ := 8192

/-- `BANK_RATE`: bank rotation rate in 16-bit angle units per second. -/
def BANK_RATE : ℚ := 32768

/-- `TURN_RATE`: heading rotation rate in 16-bit angle units per second. -/
def TURN_RATE : ℚ := 8192

/-- `toRadians`: `(angle16 / FULL_CIRCLE) * Math.PI * 2`. -/
noncomputable def toRadians (angle16 : ℚ) : ℝ :=
  ((angle16 : ℝ) / 65536) * Real.pi * 2

/-- `ManeuverType`: the closed enumeration of the six maneuvers. -/
inductive ManeuverType where
  | straight
  | roll
  | loop
  | climb
  | eight
  | turn360
deriving DecidableEq, Repr

/-- The four step tags of `ManeuverStep.type`. -/
inductive StepKind where
  | ahead
  | pitch
  | bank
  | turn
deriving DecidableEq, Repr

/-- `ManeuverStep`: `{ type, value, direction? }` from the source. -/
structure ManeuverStep where
  type : StepKind
  value : ℚ
  direction : Option ℤ
deriving DecidableEq, Repr

/-- `MANEUVERS`: the static maneuver table, numerals as in the source
(`0x4000 = 16384`, `0x6000 = 24576`, `0x18000 = 98304`, `0x2000 = 8192`). -/
def MANEUVERS : ManeuverType → List ManeuverStep
  | .straight =>
      [⟨.ahead, 1000, none⟩]
  | .roll =>
      [⟨.ahead, 300, none⟩, ⟨.bank, FULL_CIRCLE, some 1⟩, ⟨.ahead, 300, none⟩]
  | .loop =>
      [⟨.ahead, 500, none⟩, ⟨.pitch, FULL_CIRCLE, some 1⟩, ⟨.ahead, 500, none⟩]
  | .climb =>
      [⟨.ahead, 450, none⟩, ⟨.pitch, 12800, some 1⟩, ⟨.ahead, 500, none⟩]
  | .eight =>
      [⟨.ahead, 400, none⟩, ⟨.pitch, 16384, some 1⟩, ⟨.ahead, 50, none⟩,
       ⟨.pitch, 24576, some 1⟩, ⟨.bank, 98304, some 1⟩, ⟨.pitch, 24576, some 1⟩,
       ⟨.ahead, 50, none⟩, ⟨.pitch, 24576, some 1⟩, ⟨.bank, 98304, some 1⟩,
       ⟨.pitch, 8192, some 1⟩, ⟨.ahead, 400, none⟩]
  | .turn360 =>
      [⟨.ahead, 450, none⟩, ⟨.bank, 12800, some 1⟩, ⟨.turn, FULL_CIRCLE, some 1⟩,
       ⟨.bank, 12800, some (-1)⟩, ⟨.ahead, 500, none⟩]

/-- `FlightState`, plus the companion `stepProgressRef` as a final field. -/
structure FlightState where
  position : ℝ × ℝ × ℝ
  heading : ℝ
  pitch : ℝ
  bank : ℝ
  maneuverProgress : ℚ
  currentManeuver : ManeuverType
  maneuverPhase : ℕ
  isComplete : Bool
  stepProgress : ℚ

/-- Componentwise sum of 3-vectors (`THREE.Vector3.add`). -/
noncomputable def addv (a b : ℝ × ℝ × ℝ) : ℝ × ℝ × ℝ :=
  (a.1 + b.1, a.2.1 + b.2.1, a.2.2 + b.2.2)

/-- Scalar multiple of a 3-vector. -/
noncomputable def smulv (c : ℝ) (a : ℝ × ℝ × ℝ) : ℝ × ℝ × ℝ :=
  (c * a.1, c * a.2.1, c * a.2.2)

/-- Componentwise difference of 3-vectors. -/
noncomputable def subv (a b : ℝ × ℝ × ℝ) : ℝ × ℝ × ℝ :=
  (a.1 - b.1, a.2.1 - b.2.1, a.2.2 - b.2.2)

/-- three.js rotation about the X axis. -/
noncomputable def rotX (t : ℝ) (v : ℝ × ℝ × ℝ) : ℝ × ℝ × ℝ :=
  (v.1, Real.cos t * v.2.1 - Real.sin t * v.2.2,
   Real.sin t * v.2.1 + Real.cos t * v.2.2)

/-- three.js rotation about the Y axis. -/
noncomputable def rotY (t : ℝ) (v : ℝ × ℝ × ℝ) : ℝ × ℝ × ℝ :=
  (Real.cos t * v.1 + Real.sin t * v.2.2, v.2.1,
   -Real.sin t * v.1 + Real.cos t * v.2.2)

/-- three.js rotation about the Z axis. -/
noncomputable def rotZ (t : ℝ) (v : ℝ × ℝ × ℝ) : ℝ × ℝ × ℝ :=
  (Real.cos t * v.1 - Real.sin t * v.2.1,
   Real.sin t * v.1 + Real.cos t * v.2.1, v.2.2)

/-- `new THREE.Euler(pitch, heading, bank, 'YXZ')` applied to a vector:
the intrinsic composition `Ry(heading) ∘ Rx(pitch) ∘ Rz(bank)`. -/
noncomputable def eulerYXZ (pitch heading bank : ℝ) (v : ℝ × ℝ × ℝ) : ℝ × ℝ × ℝ :=
  rotY heading (rotX pitch (rotZ bank v))

/-- `proceed`: translate forward `distance` units along the current
full 3D orientation. -/
noncomputable def proceed (s : FlightState) (distance : ℚ) : FlightState :=
  { s with
    position := addv s.position (eulerYXZ s.pitch s.heading s.bank (0, 0, (distance : ℝ))) }

/-- `initFlight`.  The two `Math.random()` draws (launch direction and
altitude jitter) and the optional maneuver argument resolved against
`getRandomManeuver()` are taken as explicit parameters. -/
noncomputable def initFlight (dir : ℝ) (jitter : ℝ) (m : ManeuverType) : FlightState :=
  { position := (-(200 : ℝ) * Real.sin dir, ALTITUDE + jitter, 200 * Real.cos dir)
    heading := dir + Real.pi
    pitch := 0
    bank := 0
    maneuverProgress := 0
    currentManeuver := m
    maneuverPhase := 0
    isComplete := false
    stepProgress := 0 }

/-- Fallback step for the (unreachable) out-of-bounds table lookup. -/
def dummyStep : ManeuverStep := ⟨.ahead, 0, none⟩

/-- `update(deltaTime)`: one simulation tick, translated branch for
branch from the source `switch`. -/
noncomputable def update (deltaTime : ℚ) (s : FlightState) : FlightState :=
  if s.isComplete then s
  else
    let maneuver := MANEUVERS s.currentManeuver
    if s.maneuverPhase ≥ maneuver.length then
      { s with isComplete := true }
    else
      let step := maneuver.getD s.maneuverPhase dummyStep
      let vel := deltaTime * SPEED
      let s1 :=
        match step.type with
        | .ahead =>
            let s' := proceed s vel
            let prog := s.stepProgress + vel
            if prog ≥ step.value then
              { s' with maneuverPhase := s.maneuverPhase + 1, stepProgress := 0 }
            else
              { s' with stepProgress := prog }
        | .pitch =>
            let s' := proceed s vel
            let s'' := { s' with
              pitch := s'.pitch + toRadians (deltaTime * PITCH_RATE) * ((step.direction.getD 1 : ℤ) : ℝ) }
            let prog := s.stepProgress + deltaTime * PITCH_RATE
            if prog ≥ step.value then
              { s'' with maneuverPhase := s.maneuverPhase + 1, stepProgress := 0 }
            else
              { s'' with stepProgress := prog }
        | .bank =>
            let s' := proceed s vel
            let s'' := { s' with
              bank := s'.bank + toRadians (deltaTime * BANK_RATE) * ((step.direction.getD 1 : ℤ) : ℝ) }
            let prog := s.stepProgress + deltaTime * BANK_RATE
            if prog ≥ step.value then
              { s'' with maneuverPhase := s.maneuverPhase + 1, stepProgress := 0 }
            else
              { s'' with stepProgress := prog }
        | .turn =>
            let s' := proceed s vel
            let s'' := { s' with
              heading := s'.heading + toRadians (deltaTime * TURN_RATE) * ((step.direction.getD 1 : ℤ) : ℝ) }
            let prog := s.stepProgress + deltaTime * TURN_RATE
            if prog ≥ step.value then
              { s'' with maneuverPhase := s.maneuverPhase + 1, stepProgress := 0 }
            else
              { s'' with stepProgress := prog }
      { s1 with maneuverProgress := (s1.maneuverPhase : ℚ) / (maneuver.length : ℚ) }

/-- A sequence of ticks: `update` folded over the list of time deltas. -/
noncomputable def run (s : FlightState) (ds : List ℚ) : FlightState :=
  ds.foldl (fun t d => update d t) s

/-!
The SRF model parser.  Input text is a list of characters; parsed JS
numbers are exact rationals, with `Option` marking NaN where the source
can produce and store one.
-/

/-- Whitespace test used for JS `trim` and the `\s+` token splitter. -/
def isWS (c : Char) : Bool := c.isWhitespace

/-- JS `content.split` at newline characters (keeps empty segments). -/
def splitOnNl : List Char → List (List Char)
  | [] => [[]]
  | c :: rest =>
    if c = '\n' then [] :: splitOnNl rest
    else
      match splitOnNl rest with
      | [] => [[c]]
      | l :: ls => (c :: l) :: ls

/-- JS `String.trim`. -/
def trimWS (cs : List Char) : List Char :=
  ((cs.dropWhile fun c => isWS c).reverse.dropWhile fun c => isWS c).reverse

/-- Accumulator version of the `\s+` splitter. -/
def tokensAux : List Char → List Char → List (List Char)
  | [], acc => if acc = [] then [] else [acc.reverse]
  | c :: rest, acc =>
    if isWS c then
      if acc = [] then tokensAux rest [] else acc.reverse :: tokensAux rest []
    else tokensAux rest (c :: acc)

/-- `line.split(/\s+/)` on an already-trimmed line: the maximal runs of
non-whitespace characters, in order. -/
def tokens (cs : List Char) : List (List Char) :=
  tokensAux cs []

/-- Numeric value of a run of decimal digits. -/
def digitsVal (ds : List Char) : ℕ :=
  ds.foldl (fun n c => 10 * n + (c.toNat - 48)) 0

/-- Leading decimal-digit run, `none` when there is none. -/
def parseNatPrefix (cs : List Char) : Option ℕ :=
  let ds := cs.takeWhile fun c => c.isDigit
  if ds = [] then none else some (digitsVal ds)

/-- Model of JS `parseInt` on the decimal tokens SRF files contain:
optional sign then a nonempty digit run; trailing characters are
ignored; everything else is NaN (`none`). -/
def parseIntJS (cs : List Char) : Option ℤ :=
  match cs with
  | '-' :: rest => (parseNatPrefix rest).map fun n => -(n : ℤ)
  | '+' :: rest => (parseNatPrefix rest).map fun n => (n : ℤ)
  | _ => (parseNatPrefix cs).map fun n => (n : ℤ)

/-- Leading unsigned decimal numeral with optional fractional part. -/
def parseDecPrefix (cs : List Char) : Option ℚ :=
  let ip := cs.takeWhile fun c => c.isDigit
  let rest := cs.dropWhile fun c => c.isDigit
  let fp :=
    match rest with
    | '.' :: r => r.takeWhile fun c => c.isDigit
    | _ => []
  if ip = [] ∧ fp = [] then none
  else some ((digitsVal ip : ℚ) + (digitsVal fp : ℚ) / (10 : ℚ) ^ fp.length)

/-- Model of JS `parseFloat` on the plain decimal tokens SRF files
contain (no exponent forms); failures are NaN (`none`). -/
def parseFloatJS (cs : List Char) : Option ℚ :=
  match cs with
  | '-' :: rest => (parseDecPrefix rest).map fun q => -q
  | '+' :: rest => parseDecPrefix rest
  | _ => parseDecPrefix cs

/-- `parseFloat(parts[i])`: out-of-range access gives `undefined`, whose
parse is NaN. -/
def pFloatAt (parts : List (List Char)) (i : ℕ) : Option ℚ :=
  parts[i]?.bind parseFloatJS

/-- `parseInt(parts[i])`, same convention. -/
def pIntAt (parts : List (List Char)) (i : ℕ) : Option ℤ :=
  parts[i]?.bind parseIntJS

/-- A parsed face.  The outer `Option` on `color`/`normal` is "the line
never appeared"; the inner `Option`s are `none` when the JS parse of an
operand produced NaN. -/
structure Face where
  color : Option (Option ℤ)
  normal : Option (Option ℚ × Option ℚ × Option ℚ)
  vertices : List ℤ
  bright : Bool
deriving DecidableEq, Repr

/-- `ParsedSRF`: vertex list and face list. -/
structure ParsedSRF where
  vertices : List (ℚ × ℚ × ℚ)
  faces : List Face
deriving DecidableEq, Repr

/-- The parser loop state: output so far plus `inFace`, the fields of
`currentFace`, and `faceVertices`. -/
structure PState where
  vertices : List (ℚ × ℚ × ℚ)
  faces : List Face
  inFace : Bool
  curColor : Option (Option ℤ)
  curNormal : Option (Option ℚ × Option ℚ × Option ℚ)
  curBright : Bool
  faceVerts : List ℤ
deriving DecidableEq, Repr

def surfTok : List Char := ['S', 'u', 'r', 'f']

def vTok : List Char := ['V']

def fTok : List Char := ['F']

def eTok : List Char := ['E']

def cTok : List Char := ['C']

def nTok : List Char := ['N']

def briTok : List Char := ['B', 'R', 'I']

/-- One iteration of the `parseSRF` line loop. -/
def stepLine (st : PState) (line : List Char) : PState :=
  if line = [] ∨ line = surfTok then st
  else if line = eTok ∧ st.inFace = false then st
  else
    let parts := tokens line
    let cmd := parts.headD []
    if cmd = vTok ∧ st.inFace = false then
      match pFloatAt parts 1, pFloatAt parts 2, pFloatAt parts 3 with
      | some x, some y, some z => { st with vertices := st.vertices ++ [(x, y, z)] }
      | _, _, _ => st
    else if cmd = fTok then
      { st with inFace := true, curColor := none, curNormal := none,
                curBright := false, faceVerts := [] }
    else if cmd = eTok ∧ st.inFace = true then
      let st' :=
        if st.faceVerts.length ≥ 3 then
          { st with faces := st.faces ++ [⟨st.curColor, st.curNormal, st.faceVerts, st.curBright⟩] }
        else st
      { st' with inFace := false, curColor := none, curNormal := none,
                 curBright := false, faceVerts := [] }
    else if cmd = cTok ∧ st.inFace = true then
      { st with curColor := some (pIntAt parts 1) }
    else if cmd = nTok ∧ st.inFace = true then
      { st with curNormal := some (pFloatAt parts 4, pFloatAt parts 5, pFloatAt parts 6) }
    else if cmd = vTok ∧ st.inFace = true then
      { st with faceVerts := st.faceVerts ++ (parts.drop 1).filterMap parseIntJS }
    else if cmd = briTok ∧ st.inFace = true then
      { st with curBright := true }
    else st

/-- Initial parser state. -/
def initPState : PState := ⟨[], [], false, none, none, false, []⟩

/-- `parseSRF`: split into trimmed lines, then fold the line loop. -/
def parseSRF (content : List Char) : ParsedSRF :=
  let lines := (splitOnNl content).map trimWS
  let st := lines.foldl stepLine initPState
  ⟨st.vertices, st.faces⟩

/-- Fan triangulation: triangles `[idx0, idx_i, idx_(i+1)]` for `i` from
`1` to `n - 2`, exactly as the source loop produces them. -/
def triangulate (indices : List ℤ) : List (ℤ × ℤ × ℤ) :=
  match indices with
  | [] => []
  | i0 :: rest => (rest.zip (rest.drop 1)).map fun p => (i0, p.1, p.2)

/-- A decoded color, fields in `THREE.Color` order. -/
structure RGB where
  r : ℚ
  g : ℚ
  b : ℚ
deriving DecidableEq, Repr

/-- JS `x >> k` on an integer: arithmetic shift, i.e. floor division by
`2^k`. -/
def jsShr (x : ℤ) (k : ℕ) : ℤ := Int.fdiv x (2 ^ k)

/-- JS `x & 31`: the low five bits, i.e. `x` modulo `32` (two's
complement semantics). -/
def jsAnd31 (x : ℤ) : ℤ := Int.emod x 32

/-- `colorToRGB`: GRB555 decode — green in bits 10–14, red in bits 5–9,
blue in bits 0–4, each 5-bit field divided by 31. -/
def colorToRGB (colorCode : ℤ) : RGB :=
  ⟨((jsAnd31 (jsShr colorCode 5)).toNat : ℚ) / 31,
   ((jsAnd31 (jsShr colorCode 10)).toNat : ℚ) / 31,
   ((jsAnd31 colorCode).toNat : ℚ) / 31⟩

/-- `colorToRGB(face.color ?? 31)`.  A `C` line whose operand failed to
parse stored NaN in the field; JS bitwise operators coerce NaN to 0. -/
def faceColorRGB (f : Face) : RGB :=
  match f.color with
  | none => colorToRGB 31
  | some none => colorToRGB 0
  | some (some n) => colorToRGB n

/-- The BRI brightness boost: `min(1, c*1.5 + 0.2)` per channel. -/
def boostRGB (c : RGB) : RGB :=
  ⟨min 1 (c.r * (3 / 2) + 1 / 5), min 1 (c.g * (3 / 2) + 1 / 5),
   min 1 (c.b * (3 / 2) + 1 / 5)⟩

/-- three.js `Vector3.normalize` (`divideScalar(length() || 1)`) composed
with the default `face.normal ?? (0, 1, 0)`.  The source normalizes when
the `N` line is parsed; the field is written only there and read only
here, so applying the normalization at the read site is observationally
equivalent.  NaN components (`none`) propagate through the division. -/
noncomputable def resolveNormal (n : Option (Option ℚ × Option ℚ × Option ℚ)) :
    Option ℝ × Option ℝ × Option ℝ :=
  match n with
  | none => (some 0, some 1, some 0)
  | some (some x, some y, some z) =>
      let len : ℝ := Real.sqrt ((x : ℝ) ^ 2 + (y : ℝ) ^ 2 + (z : ℝ) ^ 2)
      if len = 0 then (some (x : ℝ), some (y : ℝ), some (z : ℝ))
      else (some ((x : ℝ) / len), some ((y : ℝ) / len), some ((z : ℝ) / len))
  | some _ => (none, none, none)

/-- The three vertex indices of one triangle, in emission order. -/
def triVerts (t : ℤ × ℤ × ℤ) : List ℤ := [t.1, t.2.1, t.2.2]

/-- The flattened buffer-geometry output.  Positions and colors are
exact rationals; a normal component is `none` when the source would have
pushed NaN. -/
structure Mesh where
  positions : List ℚ
  normals : List (Option ℝ)
  colors : List ℚ
  skipped : ℕ

/-- The per-face loop of `createGeometryFromSRF`: for each face resolve
color and normal, skip it (counting) when it has fewer than 3 indices or
any out-of-range index, and otherwise push position/normal/color triples
for every vertex of every fan triangle.  (The source's per-vertex NaN
re-check can never fire: vertices are only stored when all three
coordinates parsed.) -/
noncomputable def emitFaces (verts : List (ℚ × ℚ × ℚ)) :
    List Face → List ℚ × List (Option ℝ) × List ℚ × ℕ
  | [] => ([], [], [], 0)
  | f :: rest =>
    let (ps, ns, cs, k) := emitFaces verts rest
    let color := faceColorRGB f
    let normal := resolveNormal f.normal
    if f.vertices.length < 3 then (ps, ns, cs, k + 1)
    else if ¬ (∀ idx ∈ f.vertices, 0 ≤ idx ∧ idx < (verts.length : ℤ)) then (ps, ns, cs, k + 1)
    else
      let finalColor := if f.bright then boostRGB color else color
      let tris := triangulate f.vertices
      let fp := tris.flatMap fun t => (triVerts t).flatMap fun i =>
        let v := verts.getD i.toNat (0, 0, 0); [v.1, v.2.1, v.2.2]
      let fn := tris.flatMap fun t => (triVerts t).flatMap fun _ =>
        [normal.1, normal.2.1, normal.2.2]
      let fc := tris.flatMap fun t => (triVerts t).flatMap fun _ =>
        [finalColor.r, finalColor.g, finalColor.b]
      (fp ++ ps, fn ++ ns, fc ++ cs, k)

/-- `createGeometryFromSRF`: parse, build the flattened arrays, and fall
back to the fixed placeholder triangle when no positions were produced. -/
noncomputable def createGeometryFromSRF (content : List Char) : Mesh :=
  let parsed := parseSRF content
  let a := emitFaces parsed.vertices parsed.faces
  if a.1 = [] then
    { positions := [0, 0, 0, 1, 0, 0, 0, 1, 0]
      normals := [some 0, some 0, some 1, some 0, some 0, some 1, some 0, some 0, some 1]
      colors := [1, 1, 1, 1, 1, 1, 1, 1, 1]
      skipped := a.2.2.2 }
  else
    { positions := a.1, normals := a.2.1, colors := a.2.2.1, skipped := a.2.2.2 }

/-!  Derived definitions used by the statements below.  -/

/-- The amount `update` adds to `stepProgressRef` for one tick of
duration `d` on `step` (read off the four `switch` branches). -/
def tickAmount (step : ManeuverStep) (d : ℚ) : ℚ :=
  match step.type with
  | .ahead => d * SPEED
  | .pitch => d * PITCH_RATE
  | .bank => d * BANK_RATE
  | .turn => d * TURN_RATE

/-- The controller's discrete bookkeeping invariant: the phase never
passes the step count, completion implies the phase is exactly the step
count, and `maneuverProgress` is the phase over the step count. -/
def Inv (s : FlightState) : Prop :=
  s.maneuverPhase ≤ (MANEUVERS s.currentManeuver).length ∧
  (s.isComplete = true → s.maneuverPhase = (MANEUVERS s.currentManeuver).length) ∧
  s.maneuverProgress = (s.maneuverPhase : ℚ) / ((MANEUVERS s.currentManeuver).length : ℚ)

/-- The shape of every state reachable while flying the `roll`
maneuver from a fresh `initFlight` with heading `h0`: heading and pitch
never move, and the bank angle is zero during the approach, tracks the
accumulated bank-rate·time of the bank step while it runs, and ends as
`toRadians` of some accumulated amount that reached the full-circle
target. -/
def RollInv (h0 : ℝ) (s : FlightState) : Prop :=
  s.currentManeuver = ManeuverType.roll ∧
  s.heading = h0 ∧
  s.pitch = 0 ∧
  s.maneuverPhase ≤ 3 ∧
  (s.maneuverPhase ≤ 2 → s.isComplete = false) ∧
  (s.maneuverPhase = 0 → s.bank = 0) ∧
  (s.maneuverPhase = 1 → s.bank = toRadians s.stepProgress) ∧
  (2 ≤ s.maneuverPhase → ∃ U : ℚ, 65536 ≤ U ∧ s.bank = toRadians U)

/-- SRF text with one well-formed triangular face and one face whose
last vertex index (9) is out of range for the three vertices. -/
def srfOneGoodOneBad : String :=
  "Surf\nV 0 0 0\nV 1 0 0\nV 0 1 0\nF\nC 100\nV 0 1 2\nE\nF\nC 200\nV 0 1 9\nE"

/-- SRF text whose only face refers to vertices that were never
defined, so no valid triangle can be emitted. -/
def srfAllInvalid : String :=
  "F\nV 0 1 9\nE"

/-!  Helper lemmas about single ticks and runs.  -/

lemma update_of_complete (d : ℚ) (s : FlightState) (h : s.isComplete = true) :
    update d s = s := by
  simp [update, h]

lemma update_currentManeuver (d : ℚ) (s : FlightState) :
    (update d s).currentManeuver = s.currentManeuver := by
  unfold update
  split
  · rfl
  · dsimp only
    split
    · rfl
    · rcases h : ((MANEUVERS s.currentManeuver).getD s.maneuverPhase dummyStep).type <;>
        simp only [h] <;> split <;> simp [proceed]

lemma phase_le_update (d : ℚ) (s : FlightState) :
    s.maneuverPhase ≤ (update d s).maneuverPhase := by
  unfold update
  split
  · exact le_refl _
  · dsimp only
    split
    · exact le_refl _
    · rcases h : ((MANEUVERS s.currentManeuver).getD s.maneuverPhase dummyStep).type <;>
        simp only [h] <;> split <;> simp [proceed]

lemma update_halt (d : ℚ) (s : FlightState) (hc : s.isComplete = false)
    (hge : (MANEUVERS s.currentManeuver).length ≤ s.maneuverPhase) :
    update d s = { s with isComplete := true } := by
  unfold update
  simp [hc, hge]

lemma inv_update (d : ℚ) (s : FlightState) (h : Inv s) : Inv (update d s) := by
  obtain ⟨h1, h2, h3⟩ := h
  unfold Inv update
  split
  next hc => exact ⟨h1, h2, h3⟩
  next hc =>
    dsimp only
    split
    next hge => exact ⟨by simpa using h1, fun _ => by simp; omega, by simpa using h3⟩
    next hlt =>
      rcases hty : ((MANEUVERS s.currentManeuver).getD s.maneuverPhase dummyStep).type <;>
        simp only [hty] <;> split <;>
        refine ⟨?_, ?_, ?_⟩ <;> simp [proceed, hc] <;> omega

lemma inv_init (dir jitter : ℝ) (m : ManeuverType) : Inv (initFlight dir jitter m) := by
  refine ⟨?_, ?_, ?_⟩ <;> simp [initFlight]

lemma run_nil (s : FlightState) : run s [] = s := rfl

lemma run_cons (s : FlightState) (d : ℚ) (ds : List ℚ) :
    run s (d :: ds) = run (update d s) ds := rfl

lemma run_singleton (s : FlightState) (d : ℚ) : run s [d] = update d s := rfl

lemma run_append (s : FlightState) (l1 l2 : List ℚ) :
    run s (l1 ++ l2) = run (run s l1) l2 := by
  simp [run, List.foldl_append]

lemma inv_run (s : FlightState) (ds : List ℚ) (h : Inv s) : Inv (run s ds) := by
  induction ds generalizing s with
  | nil => exact h
  | cons d rest ih => exact ih _ (inv_update d s h)

lemma run_currentManeuver (s : FlightState) (ds : List ℚ) :
    (run s ds).currentManeuver = s.currentManeuver := by
  induction ds generalizing s with
  | nil => rfl
  | cons d rest ih => rw [run_cons, ih, update_currentManeuver]

lemma maneuvers_length_pos (m : ManeuverType) : 0 < (MANEUVERS m).length := by
  cases m <;> simp [MANEUVERS]

lemma eulerYXZ_level (h x : ℝ) :
    eulerYXZ 0 h 0 (0, 0, x) = (Real.sin h * x, 0, Real.cos h * x) := by
  simp [eulerYXZ, rotX, rotY, rotZ]

lemma addv_smulv_accum (p : ℝ × ℝ × ℝ) (a b : ℝ) (f : ℝ × ℝ × ℝ) :
    addv (addv p (smulv a f)) (smulv b f) = addv p (smulv (a + b) f) := by
  simp [addv, smulv]
  refine ⟨by ring, by ring, by ring⟩

lemma toRadians_add (a b : ℚ) : toRadians a + toRadians b = toRadians (a + b) := by
  unfold toRadians
  push_cast
  ring

lemma toRadians_zero : toRadians 0 = 0 := by
  simp [toRadians]

/-- One `ahead` tick, characterized as a conditional on the step's
completion test. -/
lemma update_ahead_char (d : ℚ) (s : FlightState) (step : ManeuverStep)
    (hc : s.isComplete = false)
    (hstep : (MANEUVERS s.currentManeuver)[s.maneuverPhase]? = some step)
    (hty : step.type = StepKind.ahead) :
    update d s =
      if s.stepProgress + d * SPEED ≥ step.value then
        { s with
          position := addv s.position
            (eulerYXZ s.pitch s.heading s.bank (0, 0, ((d * SPEED : ℚ) : ℝ))),
          maneuverPhase := s.maneuverPhase + 1, stepProgress := 0,
          maneuverProgress :=
            ((s.maneuverPhase + 1 : ℕ) : ℚ) / ((MANEUVERS s.currentManeuver).length : ℚ) }
      else
        { s with
          position := addv s.position
            (eulerYXZ s.pitch s.heading s.bank (0, 0, ((d * SPEED : ℚ) : ℝ))),
          stepProgress := s.stepProgress + d * SPEED,
          maneuverProgress :=
            ((s.maneuverPhase : ℕ) : ℚ) / ((MANEUVERS s.currentManeuver).length : ℚ) } := by
  have hlt : s.maneuverPhase < (MANEUVERS s.currentManeuver).length := by
    rcases List.getElem?_eq_some_iff.mp hstep with ⟨h, _⟩
    exact h
  have hnge : ¬ (s.maneuverPhase ≥ (MANEUVERS s.currentManeuver).length) := by omega
  unfold update
  dsimp only
  have hgetq : (MANEUVERS s.currentManeuver).getD s.maneuverPhase dummyStep = step := by
    rw [List.getD_eq_getElem?_getD, hstep]
    rfl
  rw [hgetq]
  rw [if_neg (by simp [hc]), if_neg hnge]
  simp only [hty]
  split <;> simp [proceed]

/-- One `bank` tick, characterized the same way. -/
lemma update_bank_char (d : ℚ) (s : FlightState) (step : ManeuverStep)
    (hc : s.isComplete = false)
    (hstep : (MANEUVERS s.currentManeuver)[s.maneuverPhase]? = some step)
    (hty : step.type = StepKind.bank) :
    update d s =
      if s.stepProgress + d * BANK_RATE ≥ step.value then
        { s with
          position := addv s.position
            (eulerYXZ s.pitch s.heading s.bank (0, 0, ((d * SPEED : ℚ) : ℝ))),
          bank := s.bank + toRadians (d * BANK_RATE) * ((step.direction.getD 1 : ℤ) : ℝ),
          maneuverPhase := s.maneuverPhase + 1, stepProgress := 0,
          maneuverProgress :=
            ((s.maneuverPhase + 1 : ℕ) : ℚ) / ((MANEUVERS s.currentManeuver).length : ℚ) }
      else
        { s with
          position := addv s.position
            (eulerYXZ s.pitch s.heading s.bank (0, 0, ((d * SPEED : ℚ) : ℝ))),
          bank := s.bank + toRadians (d * BANK_RATE) * ((step.direction.getD 1 : ℤ) : ℝ),
          stepProgress := s.stepProgress + d * BANK_RATE,
          maneuverProgress :=
            ((s.maneuverPhase : ℕ) : ℚ) / ((MANEUVERS s.currentManeuver).length : ℚ) } := by
  have hlt : s.maneuverPhase < (MANEUVERS s.currentManeuver).length := by
    rcases List.getElem?_eq_some_iff.mp hstep with ⟨h, _⟩
    exact h
  have hnge : ¬ (s.maneuverPhase ≥ (MANEUVERS s.currentManeuver).length) := by omega
  unfold update
  dsimp only
  have hgetq : (MANEUVERS s.currentManeuver).getD s.maneuverPhase dummyStep = step := by
    rw [List.getD_eq_getElem?_getD, hstep]
    rfl
  rw [hgetq]
  rw [if_neg (by simp [hc]), if_neg hnge]
  simp only [hty]
  split <;> simp [proceed]

lemma subv_addv (p v : ℝ × ℝ × ℝ) : subv (addv p v) p = v := by
  simp [subv, addv]

/-- After `n` uniform ticks that have not yet covered the straight
maneuver's 1000 units, the aircraft has moved `n * 100 * d` units along
its initial heading and accumulated the same step progress. -/
lemma straight_run_before_target (dir jitter : ℝ) (d : ℚ) (hd : 0 < d) :
    ∀ n : ℕ, (n : ℚ) * (100 * d) < 1000 →
      run (initFlight dir jitter ManeuverType.straight) (List.replicate n d) =
        { initFlight dir jitter ManeuverType.straight with
          position := addv (initFlight dir jitter ManeuverType.straight).position
            (smulv (((n : ℚ) * (100 * d) : ℚ) : ℝ)
              (Real.sin (dir + Real.pi), 0, Real.cos (dir + Real.pi))),
          stepProgress := (n : ℚ) * (100 * d) } := by
  intro n
  induction n with
  | zero =>
    intro _
    simp [run, initFlight, smulv, addv]
  | succ n ih =>
    intro h
    have hd100 : (0 : ℚ) < 100 * d := by positivity
    have hmono : (n : ℚ) * (100 * d) < ((n + 1 : ℕ) : ℚ) * (100 * d) := by
      push_cast
      nlinarith
    have hlt : (n : ℚ) * (100 * d) < 1000 := lt_trans hmono h
    rw [List.replicate_succ', run_append, ih hlt, run_singleton]
    rw [update_ahead_char d _ ⟨.ahead, 1000, none⟩ (by simp [initFlight])
      (by simp [initFlight, MANEUVERS]) rfl]
    rw [if_neg (by
      simp only [initFlight, SPEED]
      push_cast at h ⊢
      intro hge
      nlinarith)]
    simp only [initFlight, MANEUVERS, SPEED, eulerYXZ_level, smulv, addv,
      FlightState.mk.injEq, Prod.mk.injEq]
    push_cast
    repeat' apply And.intro
    all_goals first | trivial | ring1

/-- The tick numbered `⌈1000 / (100 d)⌉` finishes the straight
maneuver's single step: the phase advances to 1 and the distance
covered is that many ticks times `100 d` along the initial heading. -/
lemma straight_run_completes (dir jitter : ℝ) (d : ℚ) (hd : 0 < d) :
    run (initFlight dir jitter ManeuverType.straight)
        (List.replicate (⌈(1000 : ℚ) / (100 * d)⌉₊) d) =
      { initFlight dir jitter ManeuverType.straight with
        position := addv (initFlight dir jitter ManeuverType.straight).position
          (smulv (((⌈(1000 : ℚ) / (100 * d)⌉₊ : ℚ) * (100 * d) : ℚ) : ℝ)
            (Real.sin (dir + Real.pi), 0, Real.cos (dir + Real.pi))),
        maneuverPhase := 1, stepProgress := 0, maneuverProgress := 1 } := by
  have hd100 : (0 : ℚ) < 100 * d := by positivity
  set N := ⌈(1000 : ℚ) / (100 * d)⌉₊ with hN
  have hpos : 0 < N := by
    rw [hN]
    exact Nat.ceil_pos.mpr (by positivity)
  obtain ⟨k, hk⟩ : ∃ k, N = k + 1 := ⟨N - 1, by omega⟩
  have hklt : (k : ℚ) * (100 * d) < 1000 := by
    have h2 : k < N := by omega
    rw [hN] at h2
    have h1 : (k : ℚ) < 1000 / (100 * d) := Nat.lt_ceil.mp h2
    calc (k : ℚ) * (100 * d) < 1000 / (100 * d) * (100 * d) :=
          mul_lt_mul_of_pos_right h1 hd100
      _ = 1000 := by field_simp
  have hge : (1000 : ℚ) ≤ (N : ℚ) * (100 * d) := by
    have h1 : (1000 : ℚ) / (100 * d) ≤ (N : ℚ) := by
      rw [hN]
      exact Nat.le_ceil _
    calc (1000 : ℚ) = 1000 / (100 * d) * (100 * d) := by field_simp
      _ ≤ (N : ℚ) * (100 * d) := mul_le_mul_of_nonneg_right h1 (le_of_lt hd100)
  rw [hk] at hge ⊢
  rw [List.replicate_succ', run_append, straight_run_before_target dir jitter d hd k hklt,
    run_singleton]
  rw [update_ahead_char d _ ⟨.ahead, 1000, none⟩ (by simp [initFlight])
    (by simp [initFlight, MANEUVERS]) rfl]
  rw [if_pos (by
    simp only [initFlight, SPEED]
    push_cast at hge ⊢
    nlinarith)]
  simp only [initFlight, MANEUVERS, SPEED, eulerYXZ_level, smulv, addv,
    FlightState.mk.injEq, Prod.mk.injEq]
  push_cast
  repeat' apply And.intro
  all_goals first | trivial | ring1 | simp

/-- C4 counterexample: at `deltaTime = 6` the straight step finishes on
the second tick having covered 1200 units, so the squared displacement
is 1200², not 1000² as the claim's "exactly 1000" requires. -/
theorem c4_displacement_overshoots :
    (run (initFlight 0 0 ManeuverType.straight) (List.replicate 2 6)).maneuverPhase = 1 ∧
    ¬ ((subv (run (initFlight 0 0 ManeuverType.straight) (List.replicate 2 6)).position
          (initFlight 0 0 ManeuverType.straight).position).1 ^ 2 +
        (subv (run (initFlight 0 0 ManeuverType.straight) (List.replicate 2 6)).position
          (initFlight 0 0 ManeuverType.straight).position).2.1 ^ 2 +
        (subv (run (initFlight 0 0 ManeuverType.straight) (List.replicate 2 6)).position
          (initFlight 0 0 ManeuverType.straight).position).2.2 ^ 2 = (1000 : ℝ) ^ 2) := by
  have hceil : ⌈(1000 : ℚ) / (100 * 6)⌉₊ = 2 := by
    rw [show (1000 : ℚ) / (100 * 6) = 5 / 3 by norm_num]
    rw [Nat.ceil_eq_iff (by norm_num)]
    constructor <;> norm_num
  have h := straight_run_completes 0 0 6 (by norm_num)
  rw [hceil] at h
  rw [h]
  refine ⟨rfl, ?_⟩
  rw [show subv
      (addv (initFlight 0 0 ManeuverType.straight).position
        (smulv ((((2 : ℕ) : ℚ) * (100 * 6) : ℚ) : ℝ)
          (Real.sin (0 + Real.pi), 0, Real.cos (0 + Real.pi))))
      (initFlight 0 0 ManeuverType.straight).position =
      smulv ((((2 : ℕ) : ℚ) * (100 * 6) : ℚ) : ℝ)
        (Real.sin (0 + Real.pi), 0, Real.cos (0 + Real.pi)) from subv_addv _ _]
  simp [smulv, Real.sin_pi, Real.cos_pi]
  norm_num

/-- C4 (amended): for the straight maneuver at fixed positive
`deltaTime = d`, the single 1000-unit step advances exactly on tick
`N = ⌈1000 / (100 d)⌉` — the phase is 0 on every earlier tick and 1 at
`N` — and the displacement from the start is then `N·100·d ≥ 1000`
units along the initial heading (its squared magnitude is `(N·100·d)²`,
which exceeds 1000² whenever `100·d` does not divide 1000 evenly), with
pitch and bank still zero. -/
theorem c4_straight_ticks_and_displacement (dir jitter : ℝ) (d : ℚ) (hd : 0 < d) :
    (∀ n : ℕ, n < ⌈(1000 : ℚ) / (100 * d)⌉₊ →
      (run (initFlight dir jitter ManeuverType.straight)
        (List.replicate n d)).maneuverPhase = 0) ∧
    (run (initFlight dir jitter ManeuverType.straight)
        (List.replicate (⌈(1000 : ℚ) / (100 * d)⌉₊) d)).maneuverPhase = 1 ∧
    (run (initFlight dir jitter ManeuverType.straight)
        (List.replicate (⌈(1000 : ℚ) / (100 * d)⌉₊) d)).pitch = 0 ∧
    (run (initFlight dir jitter ManeuverType.straight)
        (List.replicate (⌈(1000 : ℚ) / (100 * d)⌉₊) d)).bank = 0 ∧
    subv (run (initFlight dir jitter ManeuverType.straight)
        (List.replicate (⌈(1000 : ℚ) / (100 * d)⌉₊) d)).position
      (initFlight dir jitter ManeuverType.straight).position =
      smulv (((⌈(1000 : ℚ) / (100 * d)⌉₊ : ℚ) * (100 * d) : ℚ) : ℝ)
        (Real.sin (initFlight dir jitter ManeuverType.straight).heading, 0,
         Real.cos (initFlight dir jitter ManeuverType.straight).heading) ∧
    (subv (run (initFlight dir jitter ManeuverType.straight)
        (List.replicate (⌈(1000 : ℚ) / (100 * d)⌉₊) d)).position
      (initFlight dir jitter ManeuverType.straight).position).1 ^ 2 +
    (subv (run (initFlight dir jitter ManeuverType.straight)
        (List.replicate (⌈(1000 : ℚ) / (100 * d)⌉₊) d)).position
      (initFlight dir jitter ManeuverType.straight).position).2.1 ^ 2 +
    (subv (run (initFlight dir jitter ManeuverType.straight)
        (List.replicate (⌈(1000 : ℚ) / (100 * d)⌉₊) d)).position
      (initFlight dir jitter ManeuverType.straight).position).2.2 ^ 2 =
      ((((⌈(1000 : ℚ) / (100 * d)⌉₊ : ℚ) * (100 * d) : ℚ) : ℝ)) ^ 2 ∧
    (1000 : ℚ) ≤ (⌈(1000 : ℚ) / (100 * d)⌉₊ : ℚ) * (100 * d) := by
  have hd100 : (0 : ℚ) < 100 * d := by positivity
  have hc := straight_run_completes dir jitter d hd
  have hdisp : subv (run (initFlight dir jitter ManeuverType.straight)
      (List.replicate (⌈(1000 : ℚ) / (100 * d)⌉₊) d)).position
      (initFlight dir jitter ManeuverType.straight).position =
      smulv (((⌈(1000 : ℚ) / (100 * d)⌉₊ : ℚ) * (100 * d) : ℚ) : ℝ)
        (Real.sin (dir + Real.pi), 0, Real.cos (dir + Real.pi)) := by
    rw [hc]
    exact subv_addv _ _
  refine ⟨?_, ?_, ?_, ?_, ?_, ?_, ?_⟩
  · intro n hn
    have hnlt : (n : ℚ) * (100 * d) < 1000 := by
      have h1 : (n : ℚ) < 1000 / (100 * d) := Nat.lt_ceil.mp hn
      calc (n : ℚ) * (100 * d) < 1000 / (100 * d) * (100 * d) :=
            mul_lt_mul_of_pos_right h1 hd100
        _ = 1000 := by field_simp
    rw [straight_run_before_target dir jitter d hd n hnlt]
    simp [initFlight]
  · rw [hc]
  · rw [hc]
    simp [initFlight]
  · rw [hc]
    simp [initFlight]
  · rw [hdisp]
    simp [initFlight]
  · rw [hdisp]
    simp only [smulv]
    ring_nf
    rw [← mul_add, Real.sin_sq_add_cos_sq, mul_one]
  · have h1 : (1000 : ℚ) / (100 * d) ≤ (⌈(1000 : ℚ) / (100 * d)⌉₊ : ℚ) := Nat.le_ceil _
    calc (1000 : ℚ) = 1000 / (100 * d) * (100 * d) := by field_simp
      _ ≤ _ := mul_le_mul_of_nonneg_right h1 (le_of_lt hd100)

/-- Witness for the amended C4 at `deltaTime = 6`. -/
theorem c4_witness :
    (run (initFlight 0 0 ManeuverType.straight)
        (List.replicate (⌈(1000 : ℚ) / (100 * 6)⌉₊) 6)).maneuverPhase = 1 :=
  (c4_straight_ticks_and_displacement 0 0 6 (by norm_num)).2.1

lemma rollInv_update (h0 : ℝ) (d : ℚ) (s : FlightState) (h : RollInv h0 s) :
    RollInv h0 (update d s) := by
  obtain ⟨hm, hh, hp, hle, hcc, hb0, hb1, hb2⟩ := h
  cases hcomp : s.isComplete with
  | true =>
    rw [update_of_complete d s hcomp]
    exact ⟨hm, hh, hp, hle, hcc, hb0, hb1, hb2⟩
  | false =>
    rcases (by omega :
        s.maneuverPhase = 0 ∨ s.maneuverPhase = 1 ∨ s.maneuverPhase = 2 ∨
          s.maneuverPhase = 3) with h0' | h1' | h2' | h3'
    · have hstep : (MANEUVERS s.currentManeuver)[s.maneuverPhase]? =
          some ⟨.ahead, 300, none⟩ := by
        rw [hm, h0']
        rfl
      rw [update_ahead_char d s _ hcomp hstep rfl]
      split
      · exact ⟨hm, hh, hp, by simp [h0'], by simp [hcomp], by simp [h0'],
          by simp [h0', hb0 h0', toRadians_zero], by simp [h0']⟩
      · exact ⟨hm, hh, hp, by simp [h0'], by simp [hcomp], by simp [h0', hb0 h0'],
          by simp [h0'], by simp [h0']⟩
    · have hstep : (MANEUVERS s.currentManeuver)[s.maneuverPhase]? =
          some ⟨.bank, FULL_CIRCLE, some 1⟩ := by
        rw [hm, h1']
        rfl
      rw [update_bank_char d s _ hcomp hstep rfl]
      split
      next hcond =>
        refine ⟨hm, hh, hp, by simp [h1'], by simp [hcomp], by simp [h1'],
          by simp [h1'], ?_⟩
        intro _
        refine ⟨s.stepProgress + d * BANK_RATE, ?_, ?_⟩
        · simpa [FULL_CIRCLE] using hcond
        · dsimp only
          rw [hb1 h1']
          simp [toRadians_add]
      next hcond =>
        refine ⟨hm, hh, hp, by simp [h1', hle], by simp [hcomp], by simp [h1'],
          ?_, by simp [h1']⟩
        intro _
        dsimp only
        rw [hb1 h1']
        simp [toRadians_add]
    · have hstep : (MANEUVERS s.currentManeuver)[s.maneuverPhase]? =
          some ⟨.ahead, 300, none⟩ := by
        rw [hm, h2']
        rfl
      rw [update_ahead_char d s _ hcomp hstep rfl]
      obtain ⟨U, hU1, hU2⟩ := hb2 (by omega)
      split
      · exact ⟨hm, hh, hp, by simp [h2'], by simp [h2'], by simp [h2'],
          by simp [h2'], fun _ => ⟨U, hU1, by simpa using hU2⟩⟩
      · exact ⟨hm, hh, hp, by simp [h2', hle], by simp [hcomp], by simp [h2'],
          by simp [h2'], fun _ => ⟨U, hU1, by simpa using hU2⟩⟩
    · have hgeL : (MANEUVERS s.currentManeuver).length ≤ s.maneuverPhase := by
        rw [hm]
        simp [MANEUVERS, h3']
      rw [update_halt d s hcomp hgeL]
      obtain ⟨U, hU1, hU2⟩ := hb2 (by omega)
      exact ⟨hm, hh, hp, by simp [h3'], by simp [h3'], by simp [h3'],
        by simp [h3'], fun _ => ⟨U, hU1, by simpa using hU2⟩⟩

lemma rollInv_init (dir jitter : ℝ) :
    RollInv (dir + Real.pi) (initFlight dir jitter ManeuverType.roll) := by
  refine ⟨?_, ?_, ?_, ?_, ?_, ?_, ?_, ?_⟩ <;> simp [initFlight]

lemma rollInv_run (h0 : ℝ) (s : FlightState) (ds : List ℚ) (h : RollInv h0 s) :
    RollInv h0 (run s ds) := by
  induction ds generalizing s with
  | nil => exact h
  | cons d rest ih => exact ih _ (rollInv_update h0 d s h)

/-- C5 (amended): when the roll maneuver driven by positive ticks from
a fresh `initFlight` reaches completion, heading and pitch still equal
their initial values (only bank was driven), and the accumulated bank
change is `toRadians` of an accumulated bank-rate·time `U ≥ 65536`
units — at least one full circle (2π), exactly 2π only when the final
bank tick lands on the 65536-unit target with no overshoot. -/
theorem c5_roll_bank_full_circle_heading_pitch_fixed
    (dir jitter : ℝ) (ds : List ℚ) (hpos : ∀ d ∈ ds, 0 < d)
    (hdone : (run (initFlight dir jitter ManeuverType.roll) ds).isComplete = true) :
    (run (initFlight dir jitter ManeuverType.roll) ds).heading =
      (initFlight dir jitter ManeuverType.roll).heading ∧
    (run (initFlight dir jitter ManeuverType.roll) ds).pitch =
      (initFlight dir jitter ManeuverType.roll).pitch ∧
    (∃ U : ℚ, 65536 ≤ U ∧
      (run (initFlight dir jitter ManeuverType.roll) ds).bank -
        (initFlight dir jitter ManeuverType.roll).bank = toRadians U) ∧
    2 * Real.pi ≤ (run (initFlight dir jitter ManeuverType.roll) ds).bank -
      (initFlight dir jitter ManeuverType.roll).bank := by
  have hinv := rollInv_run (dir + Real.pi) _ ds (rollInv_init dir jitter)
  obtain ⟨hm, hh, hp, hle, hcc, hb0, hb1, hb2⟩ := hinv
  have hph : 2 ≤ (run (initFlight dir jitter ManeuverType.roll) ds).maneuverPhase := by
    by_contra hne
    have h2 : (run (initFlight dir jitter ManeuverType.roll) ds).maneuverPhase ≤ 2 := by
      omega
    rw [hcc h2] at hdone
    cases hdone
  obtain ⟨U, hU1, hU2⟩ := hb2 hph
  have hib : (initFlight dir jitter ManeuverType.roll).bank = 0 := by simp [initFlight]
  have hih : (initFlight dir jitter ManeuverType.roll).heading = dir + Real.pi := by
    simp [initFlight]
  have hip : (initFlight dir jitter ManeuverType.roll).pitch = 0 := by simp [initFlight]
  refine ⟨by rw [hh, hih], by rw [hp, hip],
    ⟨U, hU1, by rw [hib, sub_zero, hU2]⟩, ?_⟩
  rw [hib, sub_zero, hU2]
  have hform : toRadians U = ((U : ℝ) / 65536) * Real.pi * 2 := rfl
  rw [hform]
  have hU' : (65536 : ℝ) ≤ (U : ℝ) := by exact_mod_cast hU1
  have key : ((U : ℝ) / 65536) * Real.pi * 2 - 2 * Real.pi =
      ((U : ℝ) - 65536) * (Real.pi / 32768) := by ring
  have hnn : (0 : ℝ) ≤ ((U : ℝ) - 65536) * (Real.pi / 32768) :=
    mul_nonneg (by linarith) (by positivity)
  rw [← key] at hnn
  linarith

/-- Four 3-second ticks on a fresh roll flight: tick 1 finishes the
approach, tick 2 overshoots the whole bank step (98304 of 65536 units),
tick 3 finishes the exit leg, tick 4 flags completion. -/
lemma roll_four_ticks_facts :
    (run (initFlight 0 0 ManeuverType.roll) [3, 3, 3, 3]).isComplete = true ∧
    (run (initFlight 0 0 ManeuverType.roll) [3, 3, 3, 3]).bank = toRadians 98304 := by
  have e : run (initFlight 0 0 ManeuverType.roll) [3, 3, 3, 3] =
      update 3 (update 3 (update 3 (update 3 (initFlight 0 0 ManeuverType.roll)))) := rfl
  have h1 : (update 3 (initFlight 0 0 ManeuverType.roll)).currentManeuver =
        ManeuverType.roll ∧
      (update 3 (initFlight 0 0 ManeuverType.roll)).maneuverPhase = 1 ∧
      (update 3 (initFlight 0 0 ManeuverType.roll)).isComplete = false ∧
      (update 3 (initFlight 0 0 ManeuverType.roll)).stepProgress = 0 ∧
      (update 3 (initFlight 0 0 ManeuverType.roll)).bank = 0 := by
    rw [update_ahead_char 3 _ ⟨.ahead, 300, none⟩ (by simp [initFlight])
      (by simp [initFlight, MANEUVERS]) rfl]
    rw [if_pos (by norm_num [initFlight, SPEED])]
    simp [initFlight]
  obtain ⟨h1m, h1p, h1c, h1s, h1b⟩ := h1
  have h2 : (update 3 (update 3 (initFlight 0 0 ManeuverType.roll))).currentManeuver =
        ManeuverType.roll ∧
      (update 3 (update 3 (initFlight 0 0 ManeuverType.roll))).maneuverPhase = 2 ∧
      (update 3 (update 3 (initFlight 0 0 ManeuverType.roll))).isComplete = false ∧
      (update 3 (update 3 (initFlight 0 0 ManeuverType.roll))).stepProgress = 0 ∧
      (update 3 (update 3 (initFlight 0 0 ManeuverType.roll))).bank = toRadians 98304 := by
    rw [update_bank_char 3 _ ⟨.bank, FULL_CIRCLE, some 1⟩ h1c (by rw [h1m, h1p]; rfl) rfl]
    rw [if_pos (by rw [h1s]; norm_num [BANK_RATE, FULL_CIRCLE])]
    refine ⟨by simpa using h1m, by simp [h1p], by simpa using h1c, by simp, ?_⟩
    show (update 3 (initFlight 0 0 ManeuverType.roll)).bank +
        toRadians (3 * BANK_RATE) * ((Option.getD (some 1) 1 : ℤ) : ℝ) = toRadians 98304
    rw [h1b]
    norm_num [BANK_RATE]
  obtain ⟨h2m, h2p, h2c, h2s, h2b⟩ := h2
  have h3 : (update 3 (update 3 (update 3 (initFlight 0 0
        ManeuverType.roll)))).currentManeuver = ManeuverType.roll ∧
      (update 3 (update 3 (update 3 (initFlight 0 0
        ManeuverType.roll)))).maneuverPhase = 3 ∧
      (update 3 (update 3 (update 3 (initFlight 0 0
        ManeuverType.roll)))).isComplete = false ∧
      (update 3 (update 3 (update 3 (initFlight 0 0
        ManeuverType.roll)))).bank = toRadians 98304 := by
    rw [update_ahead_char 3 _ ⟨.ahead, 300, none⟩ h2c (by rw [h2m, h2p]; rfl) rfl]
    rw [if_pos (by rw [h2s]; norm_num [SPEED])]
    exact ⟨by simpa using h2m, by simp [h2p], by simpa using h2c, by simpa using h2b⟩
  obtain ⟨h3m, h3p, h3c, h3b⟩ := h3
  have h4 := update_halt 3 _ h3c (by rw [h3m]; simp [MANEUVERS, h3p])
  rw [e, h4]
  exact ⟨rfl, by simpa using h3b⟩

/-- C5 counterexample: driven by 3-second ticks, the roll maneuver
completes with a total bank change of `toRadians 98304 = 3π`, not
exactly 2π as the claim requires. -/
theorem c5_bank_not_exactly_two_pi :
    (run (initFlight 0 0 ManeuverType.roll) [3, 3, 3, 3]).isComplete = true ∧
    (run (initFlight 0 0 ManeuverType.roll) [3, 3, 3, 3]).bank -
      (initFlight 0 0 ManeuverType.roll).bank ≠ 2 * Real.pi := by
  refine ⟨roll_four_ticks_facts.1, ?_⟩
  rw [show (initFlight 0 0 ManeuverType.roll).bank = 0 from by simp [initFlight],
    sub_zero, roll_four_ticks_facts.2]
  have h3pi : toRadians 98304 = 3 * Real.pi := by
    unfold toRadians
    rw [show ((98304 : ℚ) : ℝ) = 98304 from by norm_num]
    ring_nf
  rw [h3pi]
  intro heq
  exact Real.pi_ne_zero (by linarith)

/-- Witness for the amended C5: four 3-second ticks run the roll
maneuver to completion. -/
theorem c5_witness :
    (run (initFlight 0 0 ManeuverType.roll) [3, 3, 3, 3]).heading =
      (initFlight 0 0 ManeuverType.roll).heading :=
  (c5_roll_bank_full_circle_heading_pitch_fixed 0 0 [3, 3, 3, 3] (by norm_num)
    (roll_four_ticks_facts.1)).1

/-- C1: for every maneuver and every sequence of positive `deltaTime`
ticks from a fresh `initFlight`, `maneuverPhase` is non-decreasing from
each call to the next, `isComplete` is true only when `maneuverPhase`
has reached the maneuver's step count, and once `isComplete` is true a
further `update` call leaves `position`, `heading`, `pitch` and `bank`
unchanged. -/
theorem c1_phase_monotone_complete_noop
    (m : ManeuverType) (dir jitter : ℝ) (ds : List ℚ) (hpos : ∀ d ∈ ds, 0 < d) :
    (∀ n : ℕ,
      (run (initFlight dir jitter m) (ds.take n)).maneuverPhase ≤
        (run (initFlight dir jitter m) (ds.take (n + 1))).maneuverPhase) ∧
    (∀ n : ℕ,
      (run (initFlight dir jitter m) (ds.take n)).isComplete = true →
        (run (initFlight dir jitter m) (ds.take n)).maneuverPhase = (MANEUVERS m).length) ∧
    (∀ (n : ℕ) (d' : ℚ),
      (run (initFlight dir jitter m) (ds.take n)).isComplete = true →
        (update d' (run (initFlight dir jitter m) (ds.take n))).position =
          (run (initFlight dir jitter m) (ds.take n)).position ∧
        (update d' (run (initFlight dir jitter m) (ds.take n))).heading =
          (run (initFlight dir jitter m) (ds.take n)).heading ∧
        (update d' (run (initFlight dir jitter m) (ds.take n))).pitch =
          (run (initFlight dir jitter m) (ds.take n)).pitch ∧
        (update d' (run (initFlight dir jitter m) (ds.take n))).bank =
          (run (initFlight dir jitter m) (ds.take n)).bank) := by
  refine ⟨fun n => ?_, fun n hc => ?_, fun n d' hc => ?_⟩
  · rw [List.take_succ, run_append]
    cases h : ds[n]? with
    | none => simp [run]
    | some d => simpa [run] using phase_le_update d (run (initFlight dir jitter m) (ds.take n))
  · have hinv := inv_run _ (ds.take n) (inv_init dir jitter m)
    have hm := run_currentManeuver (initFlight dir jitter m) (ds.take n)
    have h2 := hinv.2.1 hc
    rw [hm] at h2
    simpa [initFlight] using h2
  · rw [update_of_complete d' _ hc]
    exact ⟨rfl, rfl, rfl, rfl⟩

/-- Witness for C1 at the straight maneuver with a single 1-second tick. -/
theorem c1_witness :
    (run (initFlight 0 0 ManeuverType.straight) (List.take 0 [1])).maneuverPhase ≤
      (run (initFlight 0 0 ManeuverType.straight) (List.take 1 [1])).maneuverPhase :=
  (c1_phase_monotone_complete_noop ManeuverType.straight 0 0 [1] (by norm_num)).1 0

/-- C2 counterexample: a single 10-second tick completes the straight
maneuver's only step, and `maneuverProgress` is then exactly 1, not
strictly below 1 as the claim requires. -/
theorem c2_progress_reaches_one :
    ¬ ((update 10 (initFlight 0 0 ManeuverType.straight)).maneuverProgress < 1) := by
  have h : (update 10 (initFlight 0 0 ManeuverType.straight)).maneuverProgress = 1 := by
    norm_num [update, initFlight, MANEUVERS, dummyStep, SPEED, proceed]
  rw [h]
  exact lt_irrefl 1

/-- C2 (amended): along any run of ticks from a fresh `initFlight`,
`maneuverProgress` always equals `maneuverPhase` divided by the step
count and lies in the closed interval [0, 1]; it reaches 1 (rather than
staying below it) on the tick that completes the final step. -/
theorem c2_progress_ratio_in_unit_interval
    (m : ManeuverType) (dir jitter : ℝ) (ds : List ℚ) (hpos : ∀ d ∈ ds, 0 < d) (n : ℕ) :
    (run (initFlight dir jitter m) (ds.take n)).maneuverProgress =
      ((run (initFlight dir jitter m) (ds.take n)).maneuverPhase : ℚ) /
        ((MANEUVERS m).length : ℚ) ∧
    0 ≤ (run (initFlight dir jitter m) (ds.take n)).maneuverProgress ∧
    (run (initFlight dir jitter m) (ds.take n)).maneuverProgress ≤ 1 := by
  have hinv := inv_run _ (ds.take n) (inv_init dir jitter m)
  have hm : (run (initFlight dir jitter m) (ds.take n)).currentManeuver = m := by
    rw [run_currentManeuver]
    simp [initFlight]
  obtain ⟨h1, h2, h3⟩ := hinv
  rw [hm] at h1 h3
  refine ⟨h3, ?_, ?_⟩
  · rw [h3]
    positivity
  · rw [h3, div_le_one (by exact_mod_cast maneuvers_length_pos m)]
    exact_mod_cast h1

/-- Witness for the amended C2 on the roll maneuver after one tick. -/
theorem c2_witness :
    (run (initFlight 0 0 ManeuverType.roll) (List.take 1 [2])).maneuverProgress =
      ((run (initFlight 0 0 ManeuverType.roll) (List.take 1 [2])).maneuverPhase : ℚ) /
        ((MANEUVERS ManeuverType.roll).length : ℚ) :=
  (c2_progress_ratio_in_unit_interval ManeuverType.roll 0 0 [2] (by norm_num) 1).1

/-- C3: during a `turn` (headingTurn) step, one `update` call moves the
aircraft by `deltaTime * SPEED` along the orientation built from the
heading as it was before this tick's rotation, and only then adds the
per-tick turn delta to `heading`; the new heading plays no part in the
tick's translation. -/
theorem c3_turn_translates_with_stale_heading
    (s : FlightState) (d : ℚ) (step : ManeuverStep)
    (hc : s.isComplete = false)
    (hstep : (MANEUVERS s.currentManeuver)[s.maneuverPhase]? = some step)
    (hty : step.type = StepKind.turn) :
    (update d s).position =
      addv s.position (eulerYXZ s.pitch s.heading s.bank (0, 0, ((d * SPEED : ℚ) : ℝ))) ∧
    (update d s).heading =
      s.heading + toRadians (d * TURN_RATE) * ((step.direction.getD 1 : ℤ) : ℝ) := by
  have hlt : s.maneuverPhase < (MANEUVERS s.currentManeuver).length := by
    rcases List.getElem?_eq_some_iff.mp hstep with ⟨h, _⟩
    exact h
  have hnge : ¬ (s.maneuverPhase ≥ (MANEUVERS s.currentManeuver).length) := by omega
  unfold update
  dsimp only
  have hgetq : (MANEUVERS s.currentManeuver).getD s.maneuverPhase dummyStep = step := by
    rw [List.getD_eq_getElem?_getD, hstep]
    rfl
  rw [hgetq]
  rw [if_neg (by simp [hc]), if_neg hnge]
  simp only [hty]
  constructor
  · split <;> rfl
  · split <;> rfl

/-- Witness for C3: a state sitting on the `turn` step of `turn360`. -/
theorem c3_witness :
    (update 1 ⟨(0, 300, 0), 0, 0, 0, 2 / 5, ManeuverType.turn360, 2, false, 0⟩).position =
      addv (0, 300, 0) (eulerYXZ 0 0 0 (0, 0, ((1 * SPEED : ℚ) : ℝ))) :=
  (c3_turn_translates_with_stale_heading
    ⟨(0, 300, 0), 0, 0, 0, 2 / 5, ManeuverType.turn360, 2, false, 0⟩ 1
    ⟨StepKind.turn, FULL_CIRCLE, some 1⟩ rfl (by simp [MANEUVERS]) rfl).1

/-- C9: on the tick that finishes the final step, `maneuverPhase` is
incremented to the step count while `isComplete` stays false; the next
`update` call sees the out-of-range phase, sets `isComplete` and moves
nothing, so exactly one tick separates the phase reaching the step
count from `isComplete` turning true. -/
theorem c9_completion_lags_one_tick
    (s : FlightState) (d d' : ℚ)
    (hc : s.isComplete = false)
    (hlast : s.maneuverPhase + 1 = (MANEUVERS s.currentManeuver).length)
    (hfin : ((MANEUVERS s.currentManeuver).getD s.maneuverPhase dummyStep).value ≤
      s.stepProgress + tickAmount ((MANEUVERS s.currentManeuver).getD s.maneuverPhase dummyStep) d) :
    (update d s).maneuverPhase = (MANEUVERS s.currentManeuver).length ∧
    (update d s).isComplete = false ∧
    (update d' (update d s)).isComplete = true ∧
    (update d' (update d s)).position = (update d s).position ∧
    (update d' (update d s)).heading = (update d s).heading ∧
    (update d' (update d s)).pitch = (update d s).pitch ∧
    (update d' (update d s)).bank = (update d s).bank ∧
    (update d' (update d s)).maneuverPhase = (update d s).maneuverPhase := by
  have hnge : ¬ (s.maneuverPhase ≥ (MANEUVERS s.currentManeuver).length) := by omega
  have h1 : (update d s).maneuverPhase = s.maneuverPhase + 1 ∧
      (update d s).isComplete = false ∧
      (update d s).currentManeuver = s.currentManeuver := by
    unfold update
    dsimp only
    rcases hty : ((MANEUVERS s.currentManeuver)[s.maneuverPhase]?.getD dummyStep).type <;>
      simp only [tickAmount, List.getD_eq_getElem?_getD, hty] at hfin <;>
      simp [hc, hnge, hty, proceed, hfin]
  obtain ⟨hp, hcf, hm⟩ := h1
  have hh := update_halt d' (update d s) hcf (by rw [hm, hp, hlast])
  rw [hh]
  exact ⟨by rw [hp, hlast], hcf, rfl, rfl, rfl, rfl, rfl, rfl⟩

lemma jsShr_natCast (c k : ℕ) : jsShr (c : ℤ) k = ((c / 2 ^ k : ℕ) : ℤ) := by
  unfold jsShr
  rw [show ((2 : ℤ) ^ k) = ((2 ^ k : ℕ) : ℤ) from by push_cast; ring]
  exact (Int.ofNat_fdiv c (2 ^ k)).symm

lemma jsAnd31_natCast (c : ℕ) : jsAnd31 (c : ℤ) = ((c % 32 : ℕ) : ℤ) := by
  unfold jsAnd31
  rfl

lemma colorToRGB_natCast (c : ℕ) :
    colorToRGB (c : ℤ) =
      ⟨((c / 32 % 32 : ℕ) : ℚ) / 31, ((c / 1024 % 32 : ℕ) : ℚ) / 31,
       ((c % 32 : ℕ) : ℚ) / 31⟩ := by
  unfold colorToRGB
  rw [jsShr_natCast, jsShr_natCast, jsAnd31_natCast, jsAnd31_natCast, jsAnd31_natCast]
  simp only [Int.toNat_natCast]
  norm_num

/-- C6: `colorToRGB` decodes GRB555 — green from bits 10–14, red from
bits 5–9, blue from bits 0–4, each 5-bit field divided by 31; code 0
gives black, code 0x7FFF gives white, and a code with only bits 10–14
set gives zero red and blue with nonzero green. -/
theorem c6_color_decode_grb555 :
    colorToRGB (((0 : ℕ) : ℤ)) = ⟨0, 0, 0⟩ ∧
    colorToRGB (((32767 : ℕ) : ℤ)) = ⟨1, 1, 1⟩ ∧
    (∀ c : ℕ, colorToRGB (c : ℤ) =
      ⟨((c / 32 % 32 : ℕ) : ℚ) / 31, ((c / 1024 % 32 : ℕ) : ℚ) / 31,
       ((c % 32 : ℕ) : ℚ) / 31⟩) ∧
    ∀ g : ℕ, 0 < g → g < 32 →
      (colorToRGB ((1024 * g : ℕ) : ℤ)).r = 0 ∧
      (colorToRGB ((1024 * g : ℕ) : ℤ)).b = 0 ∧
      (colorToRGB ((1024 * g : ℕ) : ℤ)).g ≠ 0 := by
  refine ⟨?_, ?_, colorToRGB_natCast, ?_⟩
  · have h := colorToRGB_natCast 0
    norm_num at h ⊢
    exact h
  · have h := colorToRGB_natCast 32767
    norm_num at h ⊢
    exact h
  · intro g hg hlt
    have h := colorToRGB_natCast (1024 * g)
    have e1 : 1024 * g / 32 % 32 = 0 := by omega
    have e2 : 1024 * g % 32 = 0 := by omega
    have e3 : 1024 * g / 1024 % 32 = g := by omega
    rw [h, e1, e2, e3]
    refine ⟨by norm_num, by norm_num, ?_⟩
    exact div_ne_zero (by exact_mod_cast hg.ne') (by norm_num)

/-- Witness for C6 at the code with only bit pattern 00101 in the green
field (packed value 5120). -/
theorem c6_witness :
    (colorToRGB ((1024 * 5 : ℕ) : ℤ)).r = 0 ∧
    (colorToRGB ((1024 * 5 : ℕ) : ℤ)).b = 0 ∧
    (colorToRGB ((1024 * 5 : ℕ) : ℤ)).g ≠ 0 :=
  c6_color_decode_grb555.2.2.2 5 (by norm_num) (by norm_num)

lemma parse_oneGoodOneBad : parseSRF (srfOneGoodOneBad.toList) =
    ⟨[(0, 0, 0), (1, 0, 0), (0, 1, 0)],
     [⟨some (some 100), none, [0, 1, 2], false⟩,
      ⟨some (some 200), none, [0, 1, 9], false⟩]⟩ := by
  simp [parseSRF, srfOneGoodOneBad, splitOnNl, trimWS, isWS, tokens, tokensAux, stepLine,
    initPState, pFloatAt, pIntAt, parseFloatJS, parseIntJS, parseDecPrefix, parseNatPrefix,
    digitsVal, surfTok, vTok, fTok, eTok, cTok, nTok, briTok]

lemma color100 : faceColorRGB ⟨some (some 100), none, [0, 1, 2], false⟩ = ⟨3 / 31, 0, 4 / 31⟩ := by
  have h := colorToRGB_natCast 100
  norm_num at h
  simpa [faceColorRGB] using h

lemma emit_oneGoodOneBad :
    emitFaces [(0, 0, 0), (1, 0, 0), (0, 1, 0)]
      [⟨some (some 100), none, [0, 1, 2], false⟩,
       ⟨some (some 200), none, [0, 1, 9], false⟩] =
    ([0, 0, 0, 1, 0, 0, 0, 1, 0],
     [some 0, some 1, some 0, some 0, some 1, some 0, some 0, some 1, some 0],
     [3 / 31, 0, 4 / 31, 3 / 31, 0, 4 / 31, 3 / 31, 0, 4 / 31], 1) := by
  simp [emitFaces, triangulate, triVerts, resolveNormal, boostRGB, color100]

/-- C7: on input text with one well-formed triangular face and one face
whose index 9 is out of range, mesh construction (a total function, so
it cannot throw) returns exactly the well-formed face's triangle —
its three vertices with the default normal and the face's decoded color
— nothing from the invalid face, and a skipped-face count of 1. -/
theorem c7_bad_face_skipped_good_face_kept :
    (createGeometryFromSRF (srfOneGoodOneBad.toList)).positions =
      [0, 0, 0, 1, 0, 0, 0, 1, 0] ∧
    (createGeometryFromSRF (srfOneGoodOneBad.toList)).normals =
      [some 0, some 1, some 0, some 0, some 1, some 0, some 0, some 1, some 0] ∧
    (createGeometryFromSRF (srfOneGoodOneBad.toList)).colors =
      [3 / 31, 0, 4 / 31, 3 / 31, 0, 4 / 31, 3 / 31, 0, 4 / 31] ∧
    (createGeometryFromSRF (srfOneGoodOneBad.toList)).skipped = 1 := by
  have hcg : createGeometryFromSRF (srfOneGoodOneBad.toList) =
      ⟨[0, 0, 0, 1, 0, 0, 0, 1, 0],
       [some 0, some 1, some 0, some 0, some 1, some 0, some 0, some 1, some 0],
       [3 / 31, 0, 4 / 31, 3 / 31, 0, 4 / 31, 3 / 31, 0, 4 / 31], 1⟩ := by
    unfold createGeometryFromSRF
    rw [parse_oneGoodOneBad]
    dsimp only
    rw [emit_oneGoodOneBad]
    simp
  rw [hcg]
  exact ⟨rfl, rfl, rfl, rfl⟩

/-- C8: whenever the per-face loop produces no positions at all from a
non-empty input, `createGeometryFromSRF` returns the fixed non-empty
placeholder triangle with positions, normals and colors, never an empty
mesh. -/
theorem c8_placeholder_when_no_valid_triangles
    (content : List Char) (hne : content ≠ [])
    (hempty : (emitFaces (parseSRF content).vertices (parseSRF content).faces).1 = []) :
    (createGeometryFromSRF content).positions = [0, 0, 0, 1, 0, 0, 0, 1, 0] ∧
    (createGeometryFromSRF content).normals =
      [some 0, some 0, some 1, some 0, some 0, some 1, some 0, some 0, some 1] ∧
    (createGeometryFromSRF content).colors = [1, 1, 1, 1, 1, 1, 1, 1, 1] ∧
    (createGeometryFromSRF content).positions ≠ [] := by
  unfold createGeometryFromSRF
  dsimp only
  rw [if_pos hempty]
  refine ⟨rfl, rfl, rfl, by simp⟩

lemma parse_allInvalid : parseSRF (srfAllInvalid.toList) =
    ⟨[], [⟨none, none, [0, 1, 9], false⟩]⟩ := by
  simp [parseSRF, srfAllInvalid, splitOnNl, trimWS, isWS, tokens, tokensAux, stepLine,
    initPState, pFloatAt, pIntAt, parseFloatJS, parseIntJS, parseDecPrefix, parseNatPrefix,
    digitsVal, surfTok, vTok, fTok, eTok, cTok, nTok, briTok]

lemma emit_allInvalid :
    emitFaces [] [⟨none, none, [0, 1, 9], false⟩] = ([], [], [], 1) := by
  simp [emitFaces, triangulate, triVerts, resolveNormal]

/-- Witness for C8: a face referencing vertices that were never defined
produces no triangles, and the placeholder mesh is returned. -/
theorem c8_witness :
    (createGeometryFromSRF (srfAllInvalid.toList)).positions =
      [0, 0, 0, 1, 0, 0, 0, 1, 0] :=
  (c8_placeholder_when_no_valid_triangles (srfAllInvalid.toList) (by decide)
    (by rw [parse_allInvalid]; dsimp only; rw [emit_allInvalid])).1

/-- C10: an `F` token while a face is already open silently discards
the partially accumulated face — the face list is unchanged, so the
pending color, normal, brightness and indices are never emitted — and
begins a fresh empty face. -/
theorem c10_open_face_discarded_on_f
    (st : PState) (line : List Char)
    (hin : st.inFace = true)
    (hcmd : (tokens line).headD [] = fTok) :
    (stepLine st line).faces = st.faces ∧
    (stepLine st line).inFace = true ∧
    (stepLine st line).curColor = none ∧
    (stepLine st line).curNormal = none ∧
    (stepLine st line).curBright = false ∧
    (stepLine st line).faceVerts = [] := by
  have hne : line ≠ [] := by
    intro h
    rw [h] at hcmd
    exact absurd hcmd (by decide)
  have hnsurf : line ≠ surfTok := by
    intro h
    rw [h] at hcmd
    exact absurd hcmd (by decide)
  simp only [List.headD_eq_head?_getD] at hcmd
  simp [stepLine, hin, hne, hnsurf, hcmd, fTok, vTok, eTok]

/-- Witness for C10: an `F` line arriving over an open face that has
already accumulated a color, brightness, and two indices. -/
theorem c10_witness :
    (stepLine ⟨[], [], true, some (some 5), none, true, [7, 8]⟩ fTok).faces = [] :=
  (c10_open_face_discarded_on_f ⟨[], [], true, some (some 5), none, true, [7, 8]⟩
    fTok rfl (by decide)).1

/-- Witness for C9: the straight maneuver with a 10-second tick that
finishes its single step, then a further 1-second tick. -/
theorem c9_witness :
    (update 10 (initFlight 0 0 ManeuverType.straight)).maneuverPhase =
      (MANEUVERS (initFlight 0 0 ManeuverType.straight).currentManeuver).length :=
  (c9_completion_lags_one_tick (initFlight 0 0 ManeuverType.straight) 10 1 rfl
    (by norm_num [initFlight, MANEUVERS])
    (by norm_num [initFlight, MANEUVERS, dummyStep, tickAmount, SPEED])).1

end Flyby
